import Mathlib

/-!
Shallow embedding of the 66pigs game-rules code: the pure helpers in
`src/mobile_app/src/utils/gameLogic.ts` (exported from the bundle next to
`components/Input.tsx`) and the card-placement orchestration of the
`GameScreen` (`processCardPlacements`).  TypeScript numbers are modelled as
`Int`; JavaScript `undefined` array reads are modelled with `Option`.
-/

/-- Card record `{ number, pigs }` from `types/index.ts`. -/
structure Card where
  number : Int
  pigs : Int
deriving DecidableEq, Repr

/-- Row record `{ cards }` from `types/index.ts`. -/
structure TableRow where
  cards : List Card
deriving DecidableEq, Repr

/-- The nine special card numbers worth −11 pigs (`SPECIAL_DOUBLES`). -/
def SPECIAL_DOUBLES : List Int := [11, 22, 33, 44, 55, 66, 77, 88, 99]

/-- `calculatePigValue` from gameLogic: doubles → −11, else last digit 5 → 2,
else last digit 0 → 3, else 1. -/
def calculatePigValue (cardNumber : Int) : Int :=
  if cardNumber ∈ SPECIAL_DOUBLES then -11
  else if cardNumber % 10 = 5 then 2
  else if cardNumber % 10 = 0 then 3
  else 1

/-- `createDeck`: cards numbered 1..104, each tagged with its pig value. -/
def createDeck : List Card :=
  (List.range 104).map (fun i => ⟨(i : Int) + 1, calculatePigValue ((i : Int) + 1)⟩)

/-- Penalty table as the spec words it: a "double" is a positive multiple of 11
(11,22,…,99 are the only ones in 1..104). -/
def penaltySpecTable (n : Int) : Int :=
  if n % 11 = 0 then -11
  else if n % 10 = 5 then 2
  else if n % 10 = 0 then 3
  else 1

/-- C4: for every number in 1..104, `calculatePigValue` matches the spec's
penalty table — doubles take precedence (55 ↦ −11), then mod-10 = 5 ↦ 2,
mod-10 = 0 ↦ 3 (90 ↦ 3), otherwise 1 (7 ↦ 1). -/
theorem calculatePigValue_matches_table :
    (∀ n : Nat, n < 105 → 1 ≤ n → calculatePigValue (n : Int) = penaltySpecTable (n : Int))
    ∧ calculatePigValue 55 = -11 ∧ calculatePigValue 90 = 3 ∧ calculatePigValue 7 = 1 := by
  refine ⟨?_, by decide, by decide, by decide⟩
  decide

/-- C4 witness: the table agreement evaluated at the concrete number 90. -/
theorem calculatePigValue_matches_table_witness :
    (90 : Nat) < 105 ∧ 1 ≤ (90 : Nat) ∧ calculatePigValue ((90 : Nat) : Int) = penaltySpecTable ((90 : Nat) : Int) :=
  ⟨by decide, by decide, calculatePigValue_matches_table.1 90 (by decide) (by decide)⟩

/-- Last card of a row as the source reads it (`cards[cards.length - 1]`);
`0` stands in for the unread value of an empty row, which no claim reaches. -/
def rowLastNum (row : TableRow) : Int :=
  ((row.cards.getLast?).map Card.number).getD 0

/-- Row `row` qualifies to receive `card`: it has a last card and that card's
number is strictly below `card.number`. -/
def Qualifies (card : Card) (row : TableRow) : Prop :=
  ∃ lastCard, row.cards.getLast? = some lastCard ∧ lastCard.number < card.number

/-- Difference `card.number - lastCard.number` the source minimizes. -/
def rowDiff (card : Card) (row : TableRow) : Int :=
  card.number - rowLastNum row

/-- One iteration of the `findRowForCard` loop at row index `i`: state is the
pair `(bestRowIndex, smallestDifference)`, with `none` standing for the
initial `Infinity` difference.  An empty row's `undefined` last card fails the
`card.number > lastCard.number` test in the source, so it leaves the state
unchanged. -/
def findRowUpdate (card : Card) (i : Nat) (st : Int × Option Int) (row : TableRow) :
    Int × Option Int :=
  match row.cards.getLast? with
  | none => st
  | some lastCard =>
    if lastCard.number < card.number then
      let difference := card.number - lastCard.number
      match st.2 with
      | none => (Int.ofNat i, some difference)
      | some s => if difference < s then (Int.ofNat i, some difference) else st
    else st

/-- The `findRowForCard` loop over the remaining rows, starting at index `i`. -/
def findRowAux (card : Card) : List TableRow → Nat → Int × Option Int → Int × Option Int
  | [], _, st => st
  | row :: rest, i, st => findRowAux card rest (i + 1) (findRowUpdate card i st row)

/-- `findRowForCard` from gameLogic: best row index for `card`, `-1` when no
row qualifies. -/
def findRowForCard (card : Card) (rows : List TableRow) : Int :=
  (findRowAux card rows 0 ((-1 : Int), none)).1

/-- Loop invariant of `findRowForCard` after the rows in `pre` have been
scanned. -/
def FindRowInv (card : Card) (pre : List TableRow) (st : Int × Option Int) : Prop :=
  match st.2 with
  | none => st.1 = -1 ∧ ∀ j, (hj : j < pre.length) → ¬ Qualifies card pre[j]
  | some d =>
      ∃ k, ∃ hk : k < pre.length, st.1 = (k : Int) ∧ Qualifies card pre[k] ∧
        d = rowDiff card pre[k] ∧
        (∀ j, (hj : j < pre.length) → Qualifies card pre[j] → d ≤ rowDiff card pre[j]) ∧
        (∀ j, (hj : j < pre.length) → j < k → Qualifies card pre[j] → d < rowDiff card pre[j])

lemma qualifies_rowDiff {card : Card} {row : TableRow} (h : Qualifies card row) :
    rowDiff card row = card.number - rowLastNum row ∧ rowLastNum row < card.number := by
  obtain ⟨lastCard, hl, hlt⟩ := h
  constructor
  · rfl
  · simp [rowLastNum, hl, hlt]

lemma findRowUpdate_inv (card : Card) (pre : List TableRow) (st : Int × Option Int)
    (row : TableRow) (h : FindRowInv card pre st) :
    FindRowInv card (pre ++ [row]) (findRowUpdate card pre.length st row) := by
  have hlen : (pre ++ [row]).length = pre.length + 1 := by simp
  have hget : ∀ j, (hj : j < pre.length) → ∀ hj2 : j < (pre ++ [row]).length,
      (pre ++ [row])[j] = pre[j] := by
    intro j hj hj2
    exact List.getElem_append_left hj
  have hlast : ∀ hl : pre.length < (pre ++ [row]).length, (pre ++ [row])[pre.length] = row := by
    intro hl
    simp
  unfold findRowUpdate
  rcases hrl : row.cards.getLast? with _ | lastCard
  · -- empty row: state unchanged, new row never qualifies
    rcases hst : st.2 with _ | d <;> rw [FindRowInv] <;> rw [FindRowInv] at h <;> rw [hst] at h ⊢
    · refine ⟨h.1, ?_⟩
      intro j hj hq
      rcases Nat.lt_or_ge j pre.length with hj' | hj'
      · exact h.2 j hj' (by rw [hget j hj'] at hq; exact hq)
      · have hje : j = pre.length := by simp at hj; omega
        subst hje
        rw [hlast] at hq
        obtain ⟨lc, hlc, _⟩ := hq
        rw [hrl] at hlc
        exact Option.noConfusion hlc
    · obtain ⟨k, hk, h1, h2, h3, h4, h5⟩ := h
      refine ⟨k, by simp; omega, h1, by rw [hget k hk]; exact h2, by rw [hget k hk]; exact h3, ?_, ?_⟩
      · intro j hj hq
        rcases Nat.lt_or_ge j pre.length with hj' | hj'
        · rw [hget j hj'] at hq ⊢
          exact h4 j hj' hq
        · have hje : j = pre.length := by simp at hj; omega
          subst hje
          rw [hlast] at hq
          obtain ⟨lc, hlc, _⟩ := hq
          rw [hrl] at hlc
          exact Option.noConfusion hlc
      · intro j hj hjk hq
        have hj' : j < pre.length := by omega
        rw [hget j hj'] at hq ⊢
        exact h5 j hj' hjk hq
  · -- row has a last card
    by_cases hcmp : lastCard.number < card.number
    · have hqrow : Qualifies card row := ⟨lastCard, hrl, hcmp⟩
      have hdiff : rowDiff card row = card.number - lastCard.number := by
        simp [rowDiff, rowLastNum, hrl]
      simp only [hcmp, if_pos]
      rcases hst : st.2 with _ | s
      · -- first qualifying row seen
        rw [FindRowInv] at h
        rw [hst] at h
        rw [FindRowInv]
        refine ⟨pre.length, by simp, rfl, by rw [hlast]; exact hqrow, by rw [hlast, hdiff], ?_, ?_⟩
        · intro j hj hq
          rcases Nat.lt_or_ge j pre.length with hj' | hj'
          · exact absurd (by rw [hget j hj'] at hq; exact hq) (h.2 j hj')
          · have hje : j = pre.length := by simp at hj; omega
            subst hje
            rw [hlast, hdiff]
        · intro j hj hjk hq
          have hj' : j < pre.length := hjk
          exact absurd (by rw [hget j hj'] at hq; exact hq) (h.2 j hj')
      · rw [FindRowInv] at h
        rw [hst] at h
        obtain ⟨k, hk, h1, h2, h3, h4, h5⟩ := h
        by_cases himp : card.number - lastCard.number < s
        · -- strictly better: new best is the fresh row
          simp only [himp, if_pos]
          rw [FindRowInv]
          refine ⟨pre.length, by simp, rfl, by rw [hlast]; exact hqrow, by rw [hlast, hdiff], ?_, ?_⟩
          · intro j hj hq
            rcases Nat.lt_or_ge j pre.length with hj' | hj'
            · rw [hget j hj'] at hq ⊢
              have := h4 j hj' hq
              omega
            · have hje : j = pre.length := by simp at hj; omega
              subst hje
              rw [hlast, hdiff]
          · intro j hj hjk hq
            have hj' : j < pre.length := hjk
            rw [hget j hj'] at hq ⊢
            have := h4 j hj' hq
            omega
        · -- not better: keep the old best
          simp only [himp, if_neg, not_false_iff]
          rw [FindRowInv, hst]
          refine ⟨k, by simp; omega, h1, by rw [hget k hk]; exact h2, by rw [hget k hk]; exact h3, ?_, ?_⟩
          · intro j hj hq
            rcases Nat.lt_or_ge j pre.length with hj' | hj'
            · rw [hget j hj'] at hq ⊢
              exact h4 j hj' hq
            · have hje : j = pre.length := by simp at hj; omega
              subst hje
              rw [hlast, hdiff]
              omega
          · intro j hj hjk hq
            have hj' : j < pre.length := by omega
            rw [hget j hj'] at hq ⊢
            exact h5 j hj' hjk hq
    · -- last card too high: state unchanged, new row never qualifies
      simp only [hcmp, if_neg, not_false_iff]
      have hnoq : ¬ Qualifies card row := by
        intro hq
        obtain ⟨lc, hlc, hlt⟩ := hq
        rw [hrl] at hlc
        cases hlc
        exact hcmp hlt
      rcases hst : st.2 with _ | d <;> rw [FindRowInv] <;> rw [FindRowInv] at h <;> rw [hst] at h ⊢
      · refine ⟨h.1, ?_⟩
        intro j hj hq
        rcases Nat.lt_or_ge j pre.length with hj' | hj'
        · exact h.2 j hj' (by rw [hget j hj'] at hq; exact hq)
        · have hje : j = pre.length := by simp at hj; omega
          subst hje
          rw [hlast] at hq
          exact hnoq hq
      · obtain ⟨k, hk, h1, h2, h3, h4, h5⟩ := h
        refine ⟨k, by simp; omega, h1, by rw [hget k hk]; exact h2, by rw [hget k hk]; exact h3, ?_, ?_⟩
        · intro j hj hq
          rcases Nat.lt_or_ge j pre.length with hj' | hj'
          · rw [hget j hj'] at hq ⊢
            exact h4 j hj' hq
          · have hje : j = pre.length := by simp at hj; omega
            subst hje
            rw [hlast] at hq
            exact absurd hq hnoq
        · intro j hj hjk hq
          have hj' : j < pre.length := by omega
          rw [hget j hj'] at hq ⊢
          exact h5 j hj' hjk hq

lemma findRowAux_inv (card : Card) :
    ∀ (rest pre : List TableRow) (st : Int × Option Int),
      FindRowInv card pre st →
      FindRowInv card (pre ++ rest) (findRowAux card rest pre.length st)
  | [], pre, st, h => by simpa [findRowAux] using h
  | row :: rest, pre, st, h => by
    have h2 := findRowUpdate_inv card pre st row h
    have h3 := findRowAux_inv card rest (pre ++ [row]) _ h2
    simp only [List.length_append, List.length_cons, List.length_nil] at h3
    simpa [findRowAux, List.append_assoc] using h3

lemma findRowForCard_inv (card : Card) (rows : List TableRow) :
    FindRowInv card rows (findRowAux card rows 0 ((-1 : Int), none)) := by
  have h0 : FindRowInv card [] ((-1 : Int), none) := by
    rw [FindRowInv]
    exact ⟨rfl, fun j hj => absurd hj (by simp)⟩
  simpa using findRowAux_inv card rows [] ((-1 : Int), none) h0

lemma qualifies_iff_of_ne {card : Card} {row : TableRow} (h : row.cards ≠ []) :
    Qualifies card row ↔ rowLastNum row < card.number := by
  have hlast : row.cards.getLast? = some (row.cards.getLast h) :=
    List.getLast?_eq_getLast row.cards h
  constructor
  · intro hq
    exact (qualifies_rowDiff hq).2
  · intro hlt
    refine ⟨row.cards.getLast h, hlast, ?_⟩
    simpa [rowLastNum, hlast] using hlt

/-- C1: on a table of non-empty rows, `findRowForCard` returns `-1` exactly
when every row's last card is at least `card.number`; otherwise it returns an
index of a row whose last card is strictly below `card.number` that minimizes
`card.number - lastCard.number`, with ties broken by the first such row in
table order. -/
theorem findRowForCard_spec (card : Card) (rows : List TableRow)
    (hne : ∀ row ∈ rows, row.cards ≠ []) :
    (findRowForCard card rows = -1 ↔ ∀ row ∈ rows, card.number ≤ rowLastNum row)
    ∧ ∀ i : Nat, findRowForCard card rows = (i : Int) →
        ∃ hi : i < rows.length,
          rowLastNum rows[i] < card.number ∧
          (∀ j, (hj : j < rows.length) → rowLastNum rows[j] < card.number →
            card.number - rowLastNum rows[i] ≤ card.number - rowLastNum rows[j]) ∧
          (∀ j, (hj : j < rows.length) → j < i → rowLastNum rows[j] < card.number →
            card.number - rowLastNum rows[i] < card.number - rowLastNum rows[j]) := by
  have hinv := findRowForCard_inv card rows
  have hq_iff : ∀ j, (hj : j < rows.length) →
      (Qualifies card rows[j] ↔ rowLastNum rows[j] < card.number) := by
    intro j hj
    exact qualifies_iff_of_ne (hne rows[j] (List.getElem_mem hj))
  rcases hst : (findRowAux card rows 0 ((-1 : Int), none)).2 with _ | d
  · rw [FindRowInv, hst] at hinv
    obtain ⟨hbest, hnoq⟩ := hinv
    constructor
    · constructor
      · intro _ row hrow
        obtain ⟨j, hj, hje⟩ := List.mem_iff_getElem.1 hrow
        subst hje
        have := hnoq j hj
        rw [hq_iff j hj] at this
        omega
      · intro _
        exact hbest
    · intro i hi
      rw [findRowForCard] at hi
      omega
  · rw [FindRowInv, hst] at hinv
    obtain ⟨k, hk, h1, h2, h3, h4, h5⟩ := hinv
    constructor
    · constructor
      · intro hneg
        rw [findRowForCard, h1] at hneg
        omega
      · intro hall
        have := (hq_iff k hk).1 h2
        have hge := hall rows[k] (List.getElem_mem hk)
        omega
    · intro i hi
      rw [findRowForCard, h1] at hi
      have hik : i = k := by omega
      subst hik
      refine ⟨hk, (hq_iff i hk).1 h2, ?_, ?_⟩
      · intro j hj hlt
        have hle : d ≤ rowDiff card rows[j] := h4 j hj ((hq_iff j hj).2 hlt)
        have e1 : rowDiff card rows[j] = card.number - rowLastNum rows[j] := rfl
        have e2 : rowDiff card rows[i] = card.number - rowLastNum rows[i] := rfl
        omega
      · intro j hj hjk hlt
        have hlt2 : d < rowDiff card rows[j] := h5 j hj hjk ((hq_iff j hj).2 hlt)
        have e1 : rowDiff card rows[j] = card.number - rowLastNum rows[j] := rfl
        have e2 : rowDiff card rows[i] = card.number - rowLastNum rows[i] := rfl
        omega

/-- Concrete table from the spec's example: rows ending in 2, 7, 15, 40. -/
def exampleRows : List TableRow :=
  [⟨[⟨2, 1⟩]⟩, ⟨[⟨7, 1⟩]⟩, ⟨[⟨15, 2⟩]⟩, ⟨[⟨40, 3⟩]⟩]

/-- C1 witness: the characterization applied to a card of 10 on rows ending in
2, 7, 15, 40. -/
theorem findRowForCard_spec_witness :
    (∀ row ∈ exampleRows, row.cards ≠ []) ∧
    ((findRowForCard ⟨10, 3⟩ exampleRows = -1 ↔
        ∀ row ∈ exampleRows, (10 : Int) ≤ rowLastNum row)
      ∧ ∀ i : Nat, findRowForCard ⟨10, 3⟩ exampleRows = (i : Int) →
          ∃ hi : i < exampleRows.length,
            rowLastNum exampleRows[i] < (10 : Int) ∧
            (∀ j, (hj : j < exampleRows.length) → rowLastNum exampleRows[j] < (10 : Int) →
              (10 : Int) - rowLastNum exampleRows[i] ≤ (10 : Int) - rowLastNum exampleRows[j]) ∧
            (∀ j, (hj : j < exampleRows.length) → j < i → rowLastNum exampleRows[j] < (10 : Int) →
              (10 : Int) - rowLastNum exampleRows[i] < (10 : Int) - rowLastNum exampleRows[j])) :=
  ⟨by decide, findRowForCard_spec ⟨10, 3⟩ exampleRows (by decide)⟩

/-- Sanity example from the spec: the row ending in 7 (index 1) wins for an
incoming 10. -/
lemma findRowForCard_example : findRowForCard ⟨10, 3⟩ exampleRows = 1 := by decide

/-- Result record of `placeCardInRow` / `takeRow`:
`{ newRows, pigsTaken, cardsTaken }`. -/
structure PlaceResult where
  newRows : List TableRow
  pigsTaken : Int
  cardsTaken : List Card
deriving DecidableEq, Repr

/-- `calculateRowPigs`: `row.cards.reduce((sum, card) => sum + card.pigs, 0)`. -/
def calculateRowPigs (row : TableRow) : Int :=
  row.cards.foldl (fun sum card => sum + card.pigs) 0

/-- `placeCardInRow`: capture when the target row already holds 5 cards,
otherwise append.  The source deep-copies `rows` and mutates the copy at
`rowIndex`; an out-of-range index would throw there and is modelled as the
unchanged table, unreached by the claims. -/
def placeCardInRow (card : Card) (rowIndex : Nat) (rows : List TableRow) : PlaceResult :=
  match rows[rowIndex]? with
  | none => ⟨rows, 0, []⟩
  | some targetRow =>
    if 5 ≤ targetRow.cards.length then
      ⟨rows.set rowIndex ⟨[card]⟩, calculateRowPigs targetRow, targetRow.cards⟩
    else
      ⟨rows.set rowIndex ⟨targetRow.cards ++ [card]⟩, 0, []⟩

/-- `takeRow`: capture the whole row at `rowIndex` (any size) and replace it
with a single-card row holding `card`. -/
def takeRow (card : Card) (rowIndex : Nat) (rows : List TableRow) : PlaceResult :=
  match rows[rowIndex]? with
  | none => ⟨rows, 0, []⟩
  | some row => ⟨rows.set rowIndex ⟨[card]⟩, calculateRowPigs row, row.cards⟩

lemma foldl_pigs (l : List Card) (a : Int) :
    l.foldl (fun sum card => sum + card.pigs) a = a + (l.map Card.pigs).sum := by
  induction l generalizing a with
  | nil => simp
  | cons c rest ih => simp [ih, add_assoc]

lemma calculateRowPigs_eq_sum (row : TableRow) :
    calculateRowPigs row = (row.cards.map Card.pigs).sum := by
  simp [calculateRowPigs, foldl_pigs]

/-- C2: placing a card into row `i` of a table captures exactly when the row
already holds 5 cards — then `pigsTaken` is the sum of those 5 cards' pig
values, `cardsTaken` is those 5 cards and row `i` restarts as `[card]`;
with fewer than 5 cards the card is appended, `pigsTaken = 0` and
`cardsTaken = []`.  Rows other than `i` are unchanged in both cases. -/
theorem placeCardInRow_spec (card : Card) (i : Nat) (rows : List TableRow)
    (hi : i < rows.length) :
    (rows[i].cards.length = 5 →
      (placeCardInRow card i rows).pigsTaken = (rows[i].cards.map Card.pigs).sum ∧
      (placeCardInRow card i rows).cardsTaken = rows[i].cards ∧
      (placeCardInRow card i rows).newRows[i]? = some ⟨[card]⟩ ∧
      ∀ j, j ≠ i → (placeCardInRow card i rows).newRows[j]? = rows[j]?)
    ∧ (rows[i].cards.length < 5 →
      (placeCardInRow card i rows).pigsTaken = 0 ∧
      (placeCardInRow card i rows).cardsTaken = [] ∧
      (placeCardInRow card i rows).newRows[i]? = some ⟨rows[i].cards ++ [card]⟩ ∧
      ∀ j, j ≠ i → (placeCardInRow card i rows).newRows[j]? = rows[j]?) := by
  have hget : rows[i]? = some rows[i] := List.getElem?_eq_getElem hi
  constructor
  · intro h5
    have hcap : 5 ≤ rows[i].cards.length := by omega
    unfold placeCardInRow
    rw [hget]
    simp only [if_pos hcap]
    refine ⟨calculateRowPigs_eq_sum _, ?_, List.getElem?_set_self hi,
      fun j hj => List.getElem?_set_ne (fun h => hj h.symm)⟩
    trivial
  · intro h5
    have hcap : ¬ 5 ≤ rows[i].cards.length := by omega
    unfold placeCardInRow
    rw [hget]
    simp only [if_neg hcap]
    refine ⟨?_, ?_, List.getElem?_set_self hi,
      fun j hj => List.getElem?_set_ne (fun h => hj h.symm)⟩ <;> trivial

/-- C2 witness: capture of a full row of 5 and append to a short row, on a
concrete table. -/
theorem placeCardInRow_spec_witness :
    (0 : Nat) < ([⟨[⟨1, 1⟩, ⟨2, 1⟩, ⟨3, 1⟩, ⟨4, 1⟩, ⟨10, 3⟩]⟩, ⟨[⟨50, 3⟩]⟩] : List TableRow).length ∧
    (([⟨[⟨1, 1⟩, ⟨2, 1⟩, ⟨3, 1⟩, ⟨4, 1⟩, ⟨10, 3⟩]⟩, ⟨[⟨50, 3⟩]⟩] : List TableRow)[0].cards.length = 5 →
      (placeCardInRow ⟨12, 1⟩ 0 [⟨[⟨1, 1⟩, ⟨2, 1⟩, ⟨3, 1⟩, ⟨4, 1⟩, ⟨10, 3⟩]⟩, ⟨[⟨50, 3⟩]⟩]).pigsTaken =
        ((([⟨[⟨1, 1⟩, ⟨2, 1⟩, ⟨3, 1⟩, ⟨4, 1⟩, ⟨10, 3⟩]⟩, ⟨[⟨50, 3⟩]⟩] : List TableRow)[0]).cards.map Card.pigs).sum ∧
      (placeCardInRow ⟨12, 1⟩ 0 [⟨[⟨1, 1⟩, ⟨2, 1⟩, ⟨3, 1⟩, ⟨4, 1⟩, ⟨10, 3⟩]⟩, ⟨[⟨50, 3⟩]⟩]).cardsTaken =
        (([⟨[⟨1, 1⟩, ⟨2, 1⟩, ⟨3, 1⟩, ⟨4, 1⟩, ⟨10, 3⟩]⟩, ⟨[⟨50, 3⟩]⟩] : List TableRow)[0]).cards ∧
      (placeCardInRow ⟨12, 1⟩ 0 [⟨[⟨1, 1⟩, ⟨2, 1⟩, ⟨3, 1⟩, ⟨4, 1⟩, ⟨10, 3⟩]⟩, ⟨[⟨50, 3⟩]⟩]).newRows[0]? = some ⟨[⟨12, 1⟩]⟩ ∧
      ∀ j, j ≠ 0 →
        (placeCardInRow ⟨12, 1⟩ 0 [⟨[⟨1, 1⟩, ⟨2, 1⟩, ⟨3, 1⟩, ⟨4, 1⟩, ⟨10, 3⟩]⟩, ⟨[⟨50, 3⟩]⟩]).newRows[j]? =
          ([⟨[⟨1, 1⟩, ⟨2, 1⟩, ⟨3, 1⟩, ⟨4, 1⟩, ⟨10, 3⟩]⟩, ⟨[⟨50, 3⟩]⟩] : List TableRow)[j]?) :=
  ⟨by decide, (placeCardInRow_spec ⟨12, 1⟩ 0 _ (by decide)).1⟩

/-- C8: on a 4-row table, both `placeCardInRow` and `takeRow` return a table
of exactly 4 rows: a capture replaces the captured row, never removes it. -/
theorem table_keeps_four_rows (card : Card) (i : Nat) (rows : List TableRow)
    (hrows : rows.length = 4) (hi : i < 4) :
    (placeCardInRow card i rows).newRows.length = 4
    ∧ (takeRow card i rows).newRows.length = 4 := by
  have hi2 : i < rows.length := by omega
  have hget : rows[i]? = some rows[i] := List.getElem?_eq_getElem hi2
  constructor
  · rw [placeCardInRow, hget]
    by_cases h5 : 5 ≤ rows[i].cards.length <;> simp [h5, hrows]
  · rw [takeRow, hget]
    simp [hrows]

/-- C8 witness: both operations on a concrete 4-row table keep 4 rows. -/
theorem table_keeps_four_rows_witness :
    (exampleRows.length = 4 ∧ (0 : Nat) < 4) ∧
    ((placeCardInRow ⟨10, 3⟩ 0 exampleRows).newRows.length = 4
      ∧ (takeRow ⟨10, 3⟩ 0 exampleRows).newRows.length = 4) :=
  ⟨by decide, table_keeps_four_rows ⟨10, 3⟩ 0 exampleRows (by decide) (by decide)⟩

/-- Comparator of the source's `hand.sort((a, b) => a.number - b.number)`. -/
def cardLe (a b : Card) : Prop := a.number ≤ b.number

instance : DecidableRel cardLe := fun a b => inferInstanceAs (Decidable (a.number ≤ b.number))

instance : IsTotal Card cardLe := ⟨fun a b => Int.le_total a.number b.number⟩

instance : IsTrans Card cardLe := ⟨fun _ _ _ hab hbc => le_trans hab hbc⟩

/-- JavaScript `Array.prototype.sort` on a hand that may contain `undefined`
reads: the defined cards are stably sorted by the numeric comparator and every
`undefined` entry is moved behind them. -/
def jsSortByNumber (hand : List (Option Card)) : List (Option Card) :=
  let defined := hand.filterMap id
  (List.insertionSort cardLe defined).map some
    ++ List.replicate (hand.length - defined.length) none

/-- `dealCards`: for each of `numPlayers` players take the next 10 cards off
the deck (`deck[deckIndex]`, an `undefined` read past the end), sort the hand,
and return the hands plus `deck.slice(10 * numPlayers)`. -/
def dealCards (deck : List Card) (numPlayers : Nat) :
    List (List (Option Card)) × List Card :=
  ((List.range numPlayers).map (fun p =>
      jsSortByNumber ((List.range 10).map (fun c => deck[10 * p + c]?))),
   deck.drop (10 * numPlayers))

lemma dealCards_hand_of_le (deck : List Card) (numPlayers p : Nat) (hp : p < numPlayers)
    (hlen : 10 * p + 10 ≤ deck.length) :
    (dealCards deck numPlayers).1[p]? =
      some ((List.insertionSort cardLe ((deck.drop (10 * p)).take 10)).map some) := by
  have hraw : (List.range 10).map (fun c => deck[10 * p + c]?) =
      ((deck.drop (10 * p)).take 10).map some := by
    apply List.ext_getElem
    · simp
      omega
    · intro c hc1 hc2
      have hc : c < 10 := by simpa using hc1
      have hidx : 10 * p + c < deck.length := by omega
      have h1 : ((List.range 10).map (fun c => deck[10 * p + c]?))[c] =
          deck[10 * p + c]? := by
        simp
      rw [h1, List.getElem?_eq_getElem hidx]
      have hdlen : 10 * p ≤ deck.length := by omega
      rw [List.getElem_map]
      rw [List.getElem_take, List.getElem_drop]
  have hhand : (dealCards deck numPlayers).1[p]? =
      some (jsSortByNumber ((List.range 10).map (fun c => deck[10 * p + c]?))) := by
    unfold dealCards
    rw [List.getElem?_map, List.getElem?_range hp]
    rfl
  rw [hhand, hraw]
  have hfm : ∀ l : List Card, (l.map some).filterMap id = l := by
    intro l
    induction l with
    | nil => rfl
    | cons c rest ih => simp [ih]
  have hsort : jsSortByNumber (((deck.drop (10 * p)).take 10).map some) =
      (List.insertionSort cardLe ((deck.drop (10 * p)).take 10)).map some := by
    unfold jsSortByNumber
    rw [hfm]
    simp
  rw [hsort]

/-- C9: with at least `10 * n` cards in the deck and `n` in 2..10, `dealCards`
returns exactly `n` hands; hand `p` has exactly 10 entries, all real cards, is
a permutation of deck elements `10p..10p+9`, and is sorted ascending by card
number; the remainder is the untouched `deck.drop (10 * n)`. -/
theorem dealCards_spec (deck : List Card) (n : Nat) (h2 : 2 ≤ n) (h10 : n ≤ 10)
    (hlen : 10 * n ≤ deck.length) :
    (dealCards deck n).1.length = n
    ∧ (∀ p, p < n →
        ∃ hand, (dealCards deck n).1[p]? = some hand ∧
          hand.length = 10 ∧
          (∀ oc ∈ hand, oc.isSome) ∧
          List.Perm (hand.filterMap id) ((deck.drop (10 * p)).take 10) ∧
          List.Sorted cardLe (hand.filterMap id))
    ∧ (dealCards deck n).2 = deck.drop (10 * n) := by
  refine ⟨by simp [dealCards], ?_, rfl⟩
  intro p hp
  have hplen : 10 * p + 10 ≤ deck.length := by
    have : 10 * p + 10 ≤ 10 * n := by omega
    omega
  refine ⟨(List.insertionSort cardLe ((deck.drop (10 * p)).take 10)).map some,
    dealCards_hand_of_le deck n p hp hplen, ?_, ?_, ?_, ?_⟩
  · have : ((deck.drop (10 * p)).take 10).length = 10 := by
      simp
      omega
    simp [this]
  · intro oc hoc
    obtain ⟨c, _, hc⟩ := List.mem_map.1 hoc
    simp [← hc]
  · have hfm : ((List.insertionSort cardLe ((deck.drop (10 * p)).take 10)).map some).filterMap id =
        List.insertionSort cardLe ((deck.drop (10 * p)).take 10) := by
      simp
    rw [hfm]
    exact List.perm_insertionSort cardLe _
  · have hfm : ((List.insertionSort cardLe ((deck.drop (10 * p)).take 10)).map some).filterMap id =
        List.insertionSort cardLe ((deck.drop (10 * p)).take 10) := by
      simp
    rw [hfm]
    exact List.sorted_insertionSort cardLe _

/-- Concrete 20-card deck for the dealing witness. -/
def witnessDeck : List Card :=
  (List.range 20).map (fun i => ⟨20 - (i : Int), 1⟩)

/-- C9 witness: dealing the concrete 20-card deck to 2 players. -/
theorem dealCards_spec_witness :
    (2 ≤ 2 ∧ 2 ≤ 10 ∧ 10 * 2 ≤ witnessDeck.length) ∧
    ((dealCards witnessDeck 2).1.length = 2
      ∧ (∀ p, p < 2 →
          ∃ hand, (dealCards witnessDeck 2).1[p]? = some hand ∧
            hand.length = 10 ∧
            (∀ oc ∈ hand, oc.isSome) ∧
            List.Perm (hand.filterMap id) ((witnessDeck.drop (10 * p)).take 10) ∧
            List.Sorted cardLe (hand.filterMap id))
      ∧ (dealCards witnessDeck 2).2 = witnessDeck.drop (10 * 2)) :=
  ⟨⟨by decide, by decide, by decide⟩,
    dealCards_spec witnessDeck 2 (by decide) (by decide) (by decide)⟩

/-- C6 evaluation: dealing from an empty deck silently returns two hands of
ten `undefined` entries and an empty remainder instead of rejecting the
operation. -/
theorem dealCards_insufficient_deck :
    (dealCards ([] : List Card) 2).1 =
      [List.replicate 10 (none : Option Card), List.replicate 10 none]
    ∧ (dealCards ([] : List Card) 2).2 = [] := by
  decide

/-- One Fisher–Yates swap `[a[i], a[j]] = [a[j], a[i]]`; indices are always in
range in the source's loop. -/
def swapInList (l : List Card) (i j : Nat) : List Card :=
  match l[i]?, l[j]? with
  | some a, some b => (l.set i b).set j a
  | _, _ => l

/-- The `shuffleDeck` loop for `i` from the current value down to 1, with the
random draw `Math.floor(random() * (i + 1))` supplied by `rand i % (i + 1)`. -/
def shuffleAux (rand : Nat → Nat) : Nat → List Card → List Card
  | 0, l => l
  | i + 1, l => shuffleAux rand i (swapInList l (i + 1) (rand (i + 1) % (i + 2)))

/-- `shuffleDeck`: Fisher–Yates on a copy of the deck, parameterized by the
random source. -/
def shuffleDeck (rand : Nat → Nat) (deck : List Card) : List Card :=
  shuffleAux rand (deck.length - 1) deck

lemma mem_swapInList {c : Card} {l : List Card} {i j : Nat}
    (h : c ∈ swapInList l i j) : c ∈ l := by
  unfold swapInList at h
  rcases hi : l[i]? with _ | a <;> rcases hj : l[j]? with _ | b <;> rw [hi, hj] at h <;>
    simp only at h
  · exact h
  · exact h
  · exact h
  · rcases List.mem_or_eq_of_mem_set h with h2 | h2
    · rcases List.mem_or_eq_of_mem_set h2 with h3 | h3
      · exact h3
      · subst h3
        exact List.getElem?_mem hj
    · subst h2
      exact List.getElem?_mem hi

lemma mem_shuffleAux {c : Card} (rand : Nat → Nat) :
    ∀ (n : Nat) (l : List Card), c ∈ shuffleAux rand n l → c ∈ l
  | 0, l, h => h
  | n + 1, l, h => mem_swapInList (mem_shuffleAux rand n _ h)

lemma mem_shuffleDeck {c : Card} {rand : Nat → Nat} {deck : List Card}
    (h : c ∈ shuffleDeck rand deck) : c ∈ deck :=
  mem_shuffleAux rand _ deck h

/-- The numbers currently on the table, row by row, card by card
(`cardsOnTable` in `startNewRound`). -/
def tableCardNumbers (existingRows : List TableRow) : List Int :=
  (existingRows.map (fun row => row.cards.map Card.number)).flatten

/-- `startNewRound`: build a fresh deck excluding every number on the table,
shuffle it, deal `10 * numPlayers` cards; returns the hands and the excluded
numbers. -/
def startNewRound (rand : Nat → Nat) (numPlayers : Nat) (existingRows : List TableRow) :
    List (List (Option Card)) × List Int :=
  let cardsOnTable := tableCardNumbers existingRows
  let deck := shuffleDeck rand
    (createDeck.filter (fun card => !(cardsOnTable.contains card.number)))
  ((dealCards deck numPlayers).1, cardsOnTable)

lemma dealCards_hand_mem {deck : List Card} {numPlayers : Nat} {hand : List (Option Card)}
    (hhand : hand ∈ (dealCards deck numPlayers).1) {c : Card} (hc : some c ∈ hand) :
    c ∈ deck := by
  unfold dealCards at hhand
  obtain ⟨p, _, hpe⟩ := List.mem_map.1 hhand
  subst hpe
  unfold jsSortByNumber at hc
  rcases List.mem_append.1 hc with hc1 | hc1
  · obtain ⟨c', hc', hce⟩ := List.mem_map.1 hc1
    cases hce
    have : c ∈ ((List.range 10).map (fun k => deck[10 * p + k]?)).filterMap id := by
      simpa using hc'
    obtain ⟨oc, hoc, hoce⟩ := List.mem_filterMap.1 this
    obtain ⟨k, _, hke⟩ := List.mem_map.1 hoc
    cases hoce
    exact List.getElem?_mem hke
  · have := List.eq_of_mem_replicate hc1
    exact Option.noConfusion this

/-- C7: `startNewRound` never deals a card whose number is already on the
table — every real card in every dealt hand has a number outside
`tableCardNumbers existingRows`. -/
theorem startNewRound_spec (rand : Nat → Nat) (numPlayers : Nat)
    (existingRows : List TableRow)
    (henough : 10 * numPlayers ≤
      (createDeck.filter
        (fun card => !((tableCardNumbers existingRows).contains card.number))).length) :
    ∀ hand ∈ (startNewRound rand numPlayers existingRows).1,
      ∀ c : Card, some c ∈ hand → c.number ∉ tableCardNumbers existingRows := by
  intro hand hhand c hc
  have hdeck : c ∈ shuffleDeck rand
      (createDeck.filter
        (fun card => !((tableCardNumbers existingRows).contains card.number))) :=
    dealCards_hand_mem hhand hc
  have hfil := mem_shuffleDeck hdeck
  have hnc := (List.mem_filter.1 hfil).2
  intro hmem
  simp at hnc
  exact hnc hmem

/-- C7 witness: a fresh round for 2 players over a concrete 4-row table deals
no number already on the table. -/
theorem startNewRound_spec_witness :
    (10 * 2 ≤
      (createDeck.filter
        (fun card => !((tableCardNumbers exampleRows).contains card.number))).length) ∧
    (∀ hand ∈ (startNewRound (fun _ => 0) 2 exampleRows).1,
      ∀ c : Card, some c ∈ hand → c.number ∉ tableCardNumbers exampleRows) :=
  ⟨by decide, startNewRound_spec (fun _ => 0) 2 exampleRows (by decide)⟩

/-- Player record from `types/index.ts`. -/
structure Player where
  id : String
  nickname : String
  score : Int
  hand : List Card
  isHost : Bool
  isReady : Bool
  selectedCard : Option Card
deriving DecidableEq, Repr

/-- Database-shaped player row (`lobby_players`) read by the GameScreen. -/
structure LobbyPlayer where
  id : String
  player_id : String
  nickname : String
  score : Int
  hand : List Card
  selected_card : Option Card
  is_ready : Bool
deriving DecidableEq, Repr

/-- `getWinner`: `players.reduce((winner, player) => player.score <
winner.score ? player : winner)`.  JavaScript `reduce` with no seed throws on
an empty list, modelled by `Option`. -/
def getWinner : List Player → Option Player
  | [] => none
  | p :: rest =>
    some (rest.foldl (fun winner player =>
      if player.score < winner.score then player else winner) p)

/-- Invariant of the `getWinner` fold after scanning the prefix `pre`. -/
def WinnerInv (pre : List Player) (w : Player) : Prop :=
  ∃ k, ∃ hk : k < pre.length, w = pre[k] ∧
    (∀ j, (hj : j < pre.length) → w.score ≤ pre[j].score) ∧
    (∀ j, (hj : j < pre.length) → j < k → w.score < pre[j].score)

lemma winnerFold_inv :
    ∀ (rest pre : List Player) (w : Player), WinnerInv pre w →
      WinnerInv (pre ++ rest)
        (rest.foldl (fun winner player =>
          if player.score < winner.score then player else winner) w)
  | [], pre, w, h => by simpa using h
  | q :: rest, pre, w, h => by
    have hstep : WinnerInv (pre ++ [q])
        (if q.score < w.score then q else w) := by
      obtain ⟨k, hk, h1, h2, h3⟩ := h
      have hget : ∀ j, (hj : j < pre.length) → ∀ hj2 : j < (pre ++ [q]).length,
          (pre ++ [q])[j] = pre[j] := by
        intro j hj hj2
        exact List.getElem_append_left hj
      have hlast : ∀ hl : pre.length < (pre ++ [q]).length, (pre ++ [q])[pre.length] = q := by
        intro hl
        simp
      by_cases hlt : q.score < w.score
      · simp only [hlt, if_pos]
        refine ⟨pre.length, by simp, (hlast (by simp)).symm, ?_, ?_⟩
        · intro j hj
          rcases Nat.lt_or_ge j pre.length with hj' | hj'
          · rw [hget j hj']
            have := h2 j hj'
            omega
          · have hje : j = pre.length := by simp at hj; omega
            subst hje
            rw [hlast]
        · intro j hj hjlen
          have hj' : j < pre.length := hjlen
          rw [hget j hj']
          have := h2 j hj'
          omega
      · simp only [hlt, if_neg, not_false_iff]
        refine ⟨k, by simp; omega, by rw [hget k hk]; exact h1, ?_, ?_⟩
        · intro j hj
          rcases Nat.lt_or_ge j pre.length with hj' | hj'
          · rw [hget j hj']
            exact h2 j hj'
          · have hje : j = pre.length := by simp at hj; omega
            subst hje
            rw [hlast]
            omega
        · intro j hj hjk
          have hj' : j < pre.length := by omega
          rw [hget j hj']
          exact h3 j hj' hjk
    have := winnerFold_inv rest (pre ++ [q]) _ hstep
    simpa [List.append_assoc] using this

/-- C10: on a non-empty player list, `getWinner` returns the player whose
score is minimal, and on ties the first such player in list order (the reduce
keeps the earlier player unless a later one is strictly smaller). -/
theorem getWinner_spec (players : List Player) (hne : players ≠ []) :
    ∃ w, getWinner players = some w ∧
      ∃ k, ∃ hk : k < players.length, w = players[k] ∧
        (∀ j, (hj : j < players.length) → w.score ≤ players[j].score) ∧
        (∀ j, (hj : j < players.length) → j < k → w.score < players[j].score) := by
  match players, hne with
  | p :: rest, _ =>
    have h0 : WinnerInv [p] p := by
      refine ⟨0, by simp, by simp, ?_, ?_⟩
      · intro j hj
        have hj0 : j = 0 := by simp at hj; omega
        subst hj0
        simp
      · intro j hj hj0
        omega
    have := winnerFold_inv rest [p] p h0
    exact ⟨_, rfl, by simpa [WinnerInv] using this⟩

/-- Concrete players for the winner witness: a tie on the minimum score. -/
def witnessPlayers : List Player :=
  [⟨"a", "A", 5, [], true, true, none⟩,
   ⟨"b", "B", 3, [], false, true, none⟩,
   ⟨"c", "C", 3, [], false, true, none⟩,
   ⟨"d", "D", 9, [], false, true, none⟩]

/-- C10 witness: the characterization applied to a concrete tied list. -/
theorem getWinner_spec_witness :
    witnessPlayers ≠ [] ∧
    ∃ w, getWinner witnessPlayers = some w ∧
      ∃ k, ∃ hk : k < witnessPlayers.length, w = witnessPlayers[k] ∧
        (∀ j, (hj : j < witnessPlayers.length) → w.score ≤ witnessPlayers[j].score) ∧
        (∀ j, (hj : j < witnessPlayers.length) → j < k → w.score < witnessPlayers[j].score) :=
  ⟨by decide, getWinner_spec witnessPlayers (by decide)⟩

/-- `isRoundComplete` from gameLogic: every player's raw hand is empty. -/
def isRoundComplete (players : List Player) : Bool :=
  players.all (fun player => player.hand.length == 0)

/-- The hand filter `c.number !== p.selected_card?.number` used by the
GameScreen: with no selected card the optional chain yields `undefined` and
every card is kept. -/
def keepsCard (selected : Option Card) (c : Card) : Bool :=
  match selected with
  | none => true
  | some s => c.number != s.number

/-- A player's hand with the still-pending selected card filtered out. -/
def handWithoutSelected (p : LobbyPlayer) : List Card :=
  p.hand.filter (fun c => keepsCard p.selected_card c)

/-- The orchestrator's round-over check (`allHandsEmpty` in
`processCardPlacements`): at least one player and every hand minus the pending
selected card empty. -/
def allHandsEmpty (players : List LobbyPlayer) : Bool :=
  decide (0 < players.length) &&
    players.all (fun p => (handWithoutSelected p).length == 0)

/-- C5 counterexample: a player holding only their selected card.  The hand
excluding the pending selected card is empty, yet `isRoundComplete` is false —
so `isRoundComplete` does not exclude the selected card. -/
theorem isRoundComplete_counterexample :
    ¬ (isRoundComplete [⟨"a", "A", 0, [⟨7, 1⟩], true, true, some ⟨7, 1⟩⟩] = true ↔
      ∀ p ∈ [(⟨"a", "A", 0, [⟨7, 1⟩], true, true, some ⟨7, 1⟩⟩ : Player)],
        p.hand.filter (fun c => keepsCard p.selectedCard c) = []) := by
  decide

/-- C5 (amended): `isRoundComplete` is true iff every player's raw hand is
empty — it does not exclude a pending selected card; the exclusion lives in
the orchestrator's `allHandsEmpty`, which is true iff the lobby is non-empty
and every hand minus the pending selected card is empty. -/
theorem roundComplete_spec (players : List Player) (lobbyPlayers : List LobbyPlayer) :
    (isRoundComplete players = true ↔ ∀ p ∈ players, p.hand = [])
    ∧ (allHandsEmpty lobbyPlayers = true ↔
        0 < lobbyPlayers.length ∧ ∀ p ∈ lobbyPlayers, handWithoutSelected p = []) := by
  constructor
  · rw [isRoundComplete, List.all_eq_true]
    constructor
    · intro h p hp
      have := h p hp
      simpa [List.length_eq_zero] using this
    · intro h p hp
      simp [h p hp]
  · rw [allHandsEmpty, Bool.and_eq_true, List.all_eq_true]
    constructor
    · intro h
      refine ⟨by simpa using h.1, ?_⟩
      intro p hp
      have := h.2 p hp
      simpa [List.length_eq_zero] using this
    · intro h
      refine ⟨by simpa using h.1, ?_⟩
      intro p hp
      simp [h.2 p hp]

/-- Revealed-card record `{ playerId, playerName, card }`. -/
structure RevealedCard where
  playerId : String
  playerName : String
  card : Card
deriving DecidableEq, Repr

/-- Comparator of `sortRevealedCards`: `a.card.number - b.card.number`. -/
def revealedLe (a b : RevealedCard) : Prop := a.card.number ≤ b.card.number

instance : DecidableRel revealedLe :=
  fun a b => inferInstanceAs (Decidable (a.card.number ≤ b.card.number))

/-- `sortRevealedCards`: stable ascending sort of the reveal batch by card
number. -/
def sortRevealedCards (revealed : List RevealedCard) : List RevealedCard :=
  List.insertionSort revealedLe revealed

/-- Read of `playerScoreUpdates[pid] || 0`. -/
def lookupScore (updates : List (String × Int)) (pid : String) : Int :=
  match updates.find? (fun e => e.1 == pid) with
  | some e => e.2
  | none => 0

/-- Write of `playerScoreUpdates[pid] = v` (JavaScript object update). -/
def setScore : List (String × Int) → String → Int → List (String × Int)
  | [], pid, v => [(pid, v)]
  | e :: rest, pid, v => if e.1 == pid then (pid, v) :: rest else e :: setScore rest pid v

/-- `playerScoreUpdates[pid] = (playerScoreUpdates[pid] || 0) + pigsTaken`. -/
def addScore (updates : List (String × Int)) (pid : String) (pigsTaken : Int) :
    List (String × Int) :=
  setScore updates pid (lookupScore updates pid + pigsTaken)

/-- The inline minimum-pig-row loop of the GameScreen (`minPigs = Infinity;
minIndex = 0; ...`), state `(minIndex, minPigs)` with `none` for `Infinity`. -/
def minPigAux : List TableRow → Nat → Nat → Option Int → Nat
  | [], _, minIndex, _ => minIndex
  | row :: rest, i, minIndex, minPigs =>
    let pigs := calculateRowPigs row
    match minPigs with
    | none => minPigAux rest (i + 1) i (some pigs)
    | some m =>
      if pigs < m then minPigAux rest (i + 1) i (some pigs)
      else minPigAux rest (i + 1) minIndex minPigs

/-- Index of the row with the fewest pigs (first on ties), used to auto-select
a capture row for a non-local player. -/
def minPigRowIndex (rows : List TableRow) : Nat := minPigAux rows 0 0 none

/-- First pass of `processCardPlacements`: walk the sorted batch; a card with
no qualifying row (`findRowForCard = -1`) is pushed onto
`cardsNeedingRowSelection`, every other card is placed at once against the
current table (`currentRows`), accumulating score updates.  Returns the final
rows, score updates, the cards resolved by this pass in resolution order, and
the deferred cards in batch order. -/
def placementFirstPass :
    List RevealedCard → List TableRow → List (String × Int) →
    List TableRow × List (String × Int) × List RevealedCard × List RevealedCard
  | [], rows, scores => (rows, scores, [], [])
  | rc :: rest, rows, scores =>
    let rowIndex := findRowForCard rc.card rows
    if rowIndex = -1 then
      let r := placementFirstPass rest rows scores
      (r.1, r.2.1, r.2.2.1, rc :: r.2.2.2)
    else
      let res := placeCardInRow rc.card rowIndex.toNat rows
      let scores2 :=
        if res.pigsTaken ≠ 0 then addScore scores rc.playerId res.pigsTaken else scores
      let r := placementFirstPass rest res.newRows scores2
      (r.1, r.2.1, rc :: r.2.2.1, r.2.2.2)

/-- Second pass of `processCardPlacements`: each deferred card captures a row,
chosen by the local player (`choose`) when it is theirs, otherwise the
minimum-pig row.  Returns rows, score updates and the cards in resolution
order. -/
def rowSelectionPass (localPlayerId : String) (choose : Card → Nat) :
    List RevealedCard → List TableRow → List (String × Int) →
    List TableRow × List (String × Int) × List RevealedCard
  | [], rows, scores => (rows, scores, [])
  | rc :: rest, rows, scores =>
    let idx := if rc.playerId == localPlayerId then choose rc.card else minPigRowIndex rows
    let res := takeRow rc.card idx rows
    let scores2 := addScore scores rc.playerId res.pigsTaken
    let r := rowSelectionPass localPlayerId choose rest res.newRows scores2
    (r.1, r.2.1, rc :: r.2.2)

/-- `processCardPlacements` (placement portion): first pass over the sorted
batch, then the deferred row selections; the third component lists the
revealed cards in the order they were resolved. -/
def processCardPlacements (localPlayerId : String) (choose : Card → Nat)
    (sorted : List RevealedCard) (tableRows : List TableRow) :
    List TableRow × List (String × Int) × List RevealedCard :=
  let fp := placementFirstPass sorted tableRows []
  let sp := rowSelectionPass localPlayerId choose fp.2.2.2 fp.1 fp.2.1
  (sp.1, sp.2.1, fp.2.2.1 ++ sp.2.2)

lemma placementFirstPass_partition :
    ∀ (input : List RevealedCard) (rows : List TableRow) (scores : List (String × Int)),
      List.Sublist (placementFirstPass input rows scores).2.2.1 input ∧
      List.Sublist (placementFirstPass input rows scores).2.2.2 input ∧
      List.Perm ((placementFirstPass input rows scores).2.2.1 ++
        (placementFirstPass input rows scores).2.2.2) input
  | [], rows, scores => ⟨List.Sublist.refl [], List.Sublist.refl [], by simp [placementFirstPass]⟩
  | rc :: rest, rows, scores => by
    by_cases hdef : findRowForCard rc.card rows = -1
    · have ih := placementFirstPass_partition rest rows scores
      simp only [placementFirstPass, hdef, if_pos]
      refine ⟨ih.1.cons rc, ih.2.1.cons₂ rc, ?_⟩
      have hmid : List.Perm
          ((placementFirstPass rest rows scores).2.2.1 ++
            rc :: (placementFirstPass rest rows scores).2.2.2)
          (rc :: ((placementFirstPass rest rows scores).2.2.1 ++
            (placementFirstPass rest rows scores).2.2.2)) := List.perm_middle
      exact hmid.trans (ih.2.2.cons rc)
    · have ih := placementFirstPass_partition rest
        (placeCardInRow rc.card (findRowForCard rc.card rows).toNat rows).newRows
        (if (placeCardInRow rc.card (findRowForCard rc.card rows).toNat rows).pigsTaken ≠ 0
          then addScore scores rc.playerId
            (placeCardInRow rc.card (findRowForCard rc.card rows).toNat rows).pigsTaken
          else scores)
      simp only [placementFirstPass, hdef, if_neg, not_false_iff]
      exact ⟨ih.1.cons₂ rc, ih.2.1.cons rc, by simpa using ih.2.2.cons rc⟩

lemma rowSelectionPass_events (localPlayerId : String) (choose : Card → Nat) :
    ∀ (input : List RevealedCard) (rows : List TableRow) (scores : List (String × Int)),
      (rowSelectionPass localPlayerId choose input rows scores).2.2 = input
  | [], _, _ => rfl
  | rc :: rest, rows, scores => by
    simp only [rowSelectionPass]
    rw [rowSelectionPass_events localPlayerId choose rest]

/-- Concrete 4-row table for the orchestration counterexample. -/
def counterRows : List TableRow :=
  [⟨[⟨10, 3⟩]⟩, ⟨[⟨20, 3⟩]⟩, ⟨[⟨30, 3⟩]⟩, ⟨[⟨40, 3⟩]⟩]

/-- Concrete reveal batch: card 5 is below every row end, card 11 is not. -/
def counterRevealed : List RevealedCard :=
  [⟨"a", "A", ⟨11, -11⟩⟩, ⟨"b", "B", ⟨5, 2⟩⟩]

/-- C3 counterexample: on the concrete batch {5, 11} against rows ending in
10, 20, 30, 40, the orchestrator resolves card 11 first and card 5 last — the
deferred capture runs after the higher card, so the batch is not resolved in
ascending card order. -/
theorem processCardPlacements_counterexample :
    ((processCardPlacements "host" (fun _ => 0) (sortRevealedCards counterRevealed)
        counterRows).2.2.map (fun rc => rc.card.number)) = [11, 5]
    ∧ ¬ List.Pairwise (fun a b : Int => a < b)
        ((processCardPlacements "host" (fun _ => 0) (sortRevealedCards counterRevealed)
          counterRows).2.2.map (fun rc => rc.card.number)) := by
  decide

/-- C3 (amended): within one reveal batch the cards that have a qualifying row
are resolved in ascending order in a first pass, each against the table as
updated by the previous resolutions; cards with no qualifying row are deferred
and capture a row only after every placeable card, in ascending order among
themselves.  The resolution order is the first-pass cards followed by the
deferred cards, both subsequences of the ascending batch, and together a
permutation of it. -/
theorem processCardPlacements_order (localPlayerId : String) (choose : Card → Nat)
    (sorted : List RevealedCard) (tableRows : List TableRow)
    (hsorted : sorted.Pairwise (fun a b => a.card.number < b.card.number)) :
    ∃ placed deferred,
      (processCardPlacements localPlayerId choose sorted tableRows).2.2 =
        placed ++ deferred ∧
      List.Sublist placed sorted ∧ List.Sublist deferred sorted ∧
      List.Perm (placed ++ deferred) sorted ∧
      placed.Pairwise (fun a b => a.card.number < b.card.number) ∧
      deferred.Pairwise (fun a b => a.card.number < b.card.number) := by
  obtain ⟨hs1, hs2, hperm⟩ := placementFirstPass_partition sorted tableRows []
  refine ⟨(placementFirstPass sorted tableRows []).2.2.1,
    (placementFirstPass sorted tableRows []).2.2.2, ?_,
    hs1, hs2, hperm, hsorted.sublist hs1, hsorted.sublist hs2⟩
  simp only [processCardPlacements]
  rw [rowSelectionPass_events]

/-- C3 witness: the amended ordering applied to the concrete batch {5, 11}. -/
theorem processCardPlacements_order_witness :
    (sortRevealedCards counterRevealed).Pairwise
      (fun a b => a.card.number < b.card.number) ∧
    ∃ placed deferred,
      (processCardPlacements "host" (fun _ => 0) (sortRevealedCards counterRevealed)
          counterRows).2.2 = placed ++ deferred ∧
      List.Sublist placed (sortRevealedCards counterRevealed) ∧
      List.Sublist deferred (sortRevealedCards counterRevealed) ∧
      List.Perm (placed ++ deferred) (sortRevealedCards counterRevealed) ∧
      placed.Pairwise (fun a b => a.card.number < b.card.number) ∧
      deferred.Pairwise (fun a b => a.card.number < b.card.number) :=
  ⟨by decide,
    processCardPlacements_order "host" (fun _ => 0) (sortRevealedCards counterRevealed)
      counterRows (by decide)⟩
